import Mathlib

/-!
Verification of the planar-polygon boolean overlay engine (snap-rounded
Bentley-Ottmann sweep) of a 2D vector-graphics library.

The definitions below are shallow embeddings of the Go source:
pure functions become Lean functions, the mutable heap of linked
`SweepPoint` records becomes an explicit store indexed by naturals
(Go pointers become indices, `nil` becomes `none`), Go `float64`
values become either exact rationals (for the purely order-theoretic
and arithmetic code paths exercised by the claims) or the four-case
type `GF` (finite / NaN / +Inf / -Inf) where NaN/Inf behaviour is the
point of the claim, and Go `panic` becomes `Except.error`.
-/

namespace Canvas

/-- Fill rules supported by the overlay engine. Modelled from the spec:
the enumeration `{NonZero, EvenOdd}` of §6; the Go type lives outside `src/`. -/
inductive FillRule where
  | NonZero
  | EvenOdd
  deriving DecidableEq

/-- Modelled from the spec: "`NonZero` iff count ≠ 0; `EvenOdd` iff count odd"
(§4.5); the `Fills` method of `FillRule` is not under `src/`. -/
def FillRule.Fills : FillRule → Int → Bool
  | .NonZero, w => w != 0
  | .EvenOdd, w => w % 2 != 0

/-- Path boolean operations, from the source's `pathOp` constants. -/
inductive pathOp where
  | opSettle
  | opAND
  | opOR
  | opNOT
  | opXOR
  | opDIV
  deriving DecidableEq

/-- Go float64 values as seen by the overlay engine: a finite value (modelled
as an exact rational), NaN, or a signed infinity. -/
inductive GF where
  | fin : ℚ → GF
  | nan : GF
  | pinf : GF
  | ninf : GF
  deriving DecidableEq, Inhabited

/-- Go `==` on float64: NaN compares unequal to everything, itself included. -/
def GF.feq : GF → GF → Bool
  | .fin a, .fin b => a == b
  | .pinf, .pinf => true
  | .ninf, .ninf => true
  | _, _ => false

/-- Go `<` on float64: any comparison involving NaN is false. -/
def GF.flt : GF → GF → Bool
  | .fin a, .fin b => decide (a < b)
  | .fin _, .pinf => true
  | .ninf, .fin _ => true
  | .ninf, .pinf => true
  | _, _ => false

/-- Go `math.IsNaN`. -/
def GF.isNaN : GF → Bool
  | .nan => true
  | _ => false

/-- Go `math.IsInf(x, 0)`. -/
def GF.isInf : GF → Bool
  | .pinf => true
  | .ninf => true
  | _ => false

/-- The source's `SweepPoint` record. The `other`, `node` and `prev` pointers
become store indices (`node` and `prev` are `Option` since they may be nil);
field defaults give Go's zero value. `open` and `end` are Lean keywords and
are embedded as `isOpen` and `isEnd`. -/
structure SweepPoint where
  x : GF := GF.fin 0
  y : GF := GF.fin 0
  other : Nat := 0
  segment : Int := 0
  node : Option Nat := none
  windings : Int := 0
  otherWindings : Int := 0
  selfWindings : Int := 0
  otherSelfWindings : Int := 0
  prev : Option Nat := none
  square : Nat := 0
  resultWindings : Int := 0
  clipping : Bool := false
  isOpen : Bool := false
  isEnd : Bool := false
  left : Bool := false
  vertical : Bool := false
  increasing : Bool := false
  overlapped : Bool := false
  inResult : Nat := 0
  index : Int := 0
  deriving DecidableEq, Inhabited

/-- The source's `InResult`: decides whether (and how often) a segment is kept
in the result polygon, from the winding counts below the segment and the
segment's own winding contribution. Returns 0, 1 or 2 (a Go `uint8`). -/
def SweepPoint.InResult (s : SweepPoint) (op : pathOp) (fillRule : FillRule) : Nat :=
  let lowerWindings := if s.clipping then s.otherWindings else s.windings
  let lowerOtherWindings := if s.clipping then s.windings else s.otherWindings
  let upperWindings :=
    if s.clipping then s.otherWindings + s.otherSelfWindings else s.windings + s.selfWindings
  let upperOtherWindings :=
    if s.clipping then s.windings + s.selfWindings else s.otherWindings + s.otherSelfWindings
  if s.isOpen then
    -- handle open paths on the subject
    match op with
    | .opSettle | .opOR | .opDIV => 1
    | .opAND =>
        if fillRule.Fills lowerOtherWindings || fillRule.Fills upperOtherWindings then 1 else 0
    | .opNOT | .opXOR =>
        if !fillRule.Fills lowerOtherWindings || !fillRule.Fills upperOtherWindings then 1 else 0
  else
    -- lower/upper windings refers to subject path, otherWindings to clipping path
    let belowFills :=
      match op with
      | .opSettle => fillRule.Fills lowerWindings
      | .opAND => fillRule.Fills lowerWindings && fillRule.Fills lowerOtherWindings
      | .opOR => fillRule.Fills lowerWindings || fillRule.Fills lowerOtherWindings
      | .opNOT => fillRule.Fills lowerWindings && !fillRule.Fills lowerOtherWindings
      | .opXOR => fillRule.Fills lowerWindings != fillRule.Fills lowerOtherWindings
      | .opDIV => fillRule.Fills lowerWindings
    let aboveFills :=
      match op with
      | .opSettle => fillRule.Fills upperWindings
      | .opAND => fillRule.Fills upperWindings && fillRule.Fills upperOtherWindings
      | .opOR => fillRule.Fills upperWindings || fillRule.Fills upperOtherWindings
      | .opNOT => fillRule.Fills upperWindings && !fillRule.Fills upperOtherWindings
      | .opXOR => fillRule.Fills upperWindings != fillRule.Fills upperOtherWindings
      | .opDIV => fillRule.Fills upperWindings
    if op = .opDIV then
      if belowFills && aboveFills then 2
      else if belowFills || aboveFills then 1
      else 0
    else
      -- only keep edge if there is a change in filling between both sides
      if belowFills != aboveFills then 1 else 0

/-- C1: for every closed (non-open) segment, with A/A' the subject fill status
immediately below/above the segment and B/B' the clipping fill status under the
chosen fill rule, `InResult` keeps the segment (returns nonzero) exactly per the
decision table: Settle iff A ≠ A'; Intersect iff (A ∧ B) ≠ (A' ∧ B'); Union iff
(A ∨ B) ≠ (A' ∨ B'); Difference iff (A ∧ ¬B) ≠ (A' ∧ ¬B'); Xor iff
(A⊕B) ≠ (A'⊕B'); and Subdivide returns 2 if both sides fill, 1 if exactly one
side fills, else 0. -/
theorem inResult_closed_decision_table (s : SweepPoint) (fr : FillRule)
    (h : s.isOpen = false) :
    (fun (A A' B B' : Bool) =>
      (s.InResult .opSettle fr ≠ 0 ↔ A ≠ A') ∧
      (s.InResult .opAND fr ≠ 0 ↔ (A && B) ≠ (A' && B')) ∧
      (s.InResult .opOR fr ≠ 0 ↔ (A || B) ≠ (A' || B')) ∧
      (s.InResult .opNOT fr ≠ 0 ↔ (A && !B) ≠ (A' && !B')) ∧
      (s.InResult .opXOR fr ≠ 0 ↔ (A != B) ≠ (A' != B')) ∧
      (s.InResult .opDIV fr = if A && A' then 2 else if A || A' then 1 else 0))
    (fr.Fills (if s.clipping then s.otherWindings else s.windings))
    (fr.Fills (if s.clipping then s.otherWindings + s.otherSelfWindings
               else s.windings + s.selfWindings))
    (fr.Fills (if s.clipping then s.windings else s.otherWindings))
    (fr.Fills (if s.clipping then s.windings + s.selfWindings
               else s.otherWindings + s.otherSelfWindings)) := by
  simp only
  obtain ⟨x, y, o, seg, nd, w, ow, sw, osw, pv, sq, rw, clip, opn, en, lf, vt, inc, ovl, ir,
    idx⟩ := s
  simp only at h
  subst h
  simp only [SweepPoint.InResult]
  cases clip <;> simp only [Bool.false_eq_true, if_true, if_false] <;>
    cases h1 : fr.Fills w <;> cases h2 : fr.Fills (w + sw) <;>
    cases h3 : fr.Fills ow <;> cases h4 : fr.Fills (ow + osw) <;>
      simp_all

/-- C1 witness: the theorem applied to a concrete closed segment (a subject
segment with one winding added above, under NonZero) produces exactly the
decision-table facts at that input. -/
theorem inResult_closed_decision_table_witness :
    ({ selfWindings := 1 } : SweepPoint).isOpen = false ∧
    ((fun (A A' B B' : Bool) =>
      (({ selfWindings := 1 } : SweepPoint).InResult .opSettle .NonZero ≠ 0 ↔ A ≠ A') ∧
      (({ selfWindings := 1 } : SweepPoint).InResult .opAND .NonZero ≠ 0 ↔
        (A && B) ≠ (A' && B')) ∧
      (({ selfWindings := 1 } : SweepPoint).InResult .opOR .NonZero ≠ 0 ↔
        (A || B) ≠ (A' || B')) ∧
      (({ selfWindings := 1 } : SweepPoint).InResult .opNOT .NonZero ≠ 0 ↔
        (A && !B) ≠ (A' && !B')) ∧
      (({ selfWindings := 1 } : SweepPoint).InResult .opXOR .NonZero ≠ 0 ↔
        (A != B) ≠ (A' != B')) ∧
      (({ selfWindings := 1 } : SweepPoint).InResult .opDIV .NonZero =
        if A && A' then 2 else if A || A' then 1 else 0))
    (FillRule.NonZero.Fills 0) (FillRule.NonZero.Fills 1)
    (FillRule.NonZero.Fills 0) (FillRule.NonZero.Fills 0)) :=
  ⟨rfl, inResult_closed_decision_table { selfWindings := 1 } .NonZero rfl⟩

/-- C2: for every open subject segment, `InResult` returns 1 always for the
Settle, Union, and Subdivide operations; for Intersect it returns 1 exactly
when at least one adjacent side (below or above) of the clipping input fills;
for Difference and Xor it returns 1 exactly when at least one adjacent side of
the clipping input does not fill; otherwise it returns 0. -/
theorem inResult_open_subject (s : SweepPoint) (fr : FillRule)
    (ho : s.isOpen = true) (hc : s.clipping = false) :
    (fun (B B' : Bool) =>
      s.InResult .opSettle fr = 1 ∧
      s.InResult .opOR fr = 1 ∧
      s.InResult .opDIV fr = 1 ∧
      s.InResult .opAND fr = (if B || B' then 1 else 0) ∧
      s.InResult .opNOT fr = (if !B || !B' then 1 else 0) ∧
      s.InResult .opXOR fr = (if !B || !B' then 1 else 0))
    (fr.Fills s.otherWindings) (fr.Fills (s.otherWindings + s.otherSelfWindings)) := by
  simp only
  obtain ⟨x, y, o, seg, nd, w, ow, sw, osw, pv, sq, rw, clip, opn, en, lf, vt, inc, ovl, ir,
    idx⟩ := s
  simp only at ho hc
  subst ho; subst hc
  simp only [SweepPoint.InResult]
  cases h3 : fr.Fills ow <;> cases h4 : fr.Fills (ow + osw) <;> simp_all

/-- C2 witness: the theorem applied to a concrete open subject segment whose
clipping winding count below is 1 and above is 0, under NonZero. -/
theorem inResult_open_subject_witness :
    ({ isOpen := true, otherWindings := 1, otherSelfWindings := -1 } : SweepPoint).isOpen
      = true ∧
    ({ isOpen := true, otherWindings := 1, otherSelfWindings := -1 } : SweepPoint).clipping
      = false ∧
    ((fun (B B' : Bool) =>
      ({ isOpen := true, otherWindings := 1, otherSelfWindings := -1 }
        : SweepPoint).InResult .opSettle .NonZero = 1 ∧
      ({ isOpen := true, otherWindings := 1, otherSelfWindings := -1 }
        : SweepPoint).InResult .opOR .NonZero = 1 ∧
      ({ isOpen := true, otherWindings := 1, otherSelfWindings := -1 }
        : SweepPoint).InResult .opDIV .NonZero = 1 ∧
      ({ isOpen := true, otherWindings := 1, otherSelfWindings := -1 }
        : SweepPoint).InResult .opAND .NonZero = (if B || B' then 1 else 0) ∧
      ({ isOpen := true, otherWindings := 1, otherSelfWindings := -1 }
        : SweepPoint).InResult .opNOT .NonZero = (if !B || !B' then 1 else 0) ∧
      ({ isOpen := true, otherWindings := 1, otherSelfWindings := -1 }
        : SweepPoint).InResult .opXOR .NonZero = (if !B || !B' then 1 else 0))
    (FillRule.NonZero.Fills 1) (FillRule.NonZero.Fills 0)) :=
  ⟨rfl, rfl,
    inResult_open_subject { isOpen := true, otherWindings := 1, otherSelfWindings := -1 }
      .NonZero rfl rfl⟩

/-! ## The endpoint heap: `SplitAt`, `Reverse`, `AddPathEndpoints` -/

/-- The heap of `SweepPoint` records: Go pointers are indices below `size`;
`mem` is total (reads beyond `size` never occur from source-reachable code). -/
structure Store where
  size : Nat
  mem : Nat → SweepPoint

/-- The source's `SplitAt`: split the segment of endpoint `s` at point `z`.
Two fresh endpoints `r` (copy of the old partner, becoming the right end of the
first half) and `l` (copy of `s`, becoming the left end of the second half) are
allocated at indices `st.size` and `st.size + 1`, and `other` links are rewired
exactly as the source's assignments do: the write to `s.other.other` lands on
the old partner `t` before `s.other` itself is updated. -/
def Store.SplitAt (st : Store) (s : Nat) (z : GF × GF) : Store × Nat × Nat :=
  let sp := st.mem s
  let t := sp.other
  let tp := st.mem t
  let rIdx := st.size
  let lIdx := st.size + 1
  let r : SweepPoint := { tp with x := z.1, y := z.2, isEnd := false, other := s }
  let l : SweepPoint :=
    { sp with x := z.1, y := z.2, isEnd := false, other := t, node := none }
  let afterT := fun j => if j = t then { tp with other := lIdx } else st.mem j
  let mem2 := fun j => if j = s then { afterT s with other := rIdx } else afterT j
  (⟨st.size + 2, fun j => if j = rIdx then r else if j = lIdx then l else mem2 j⟩,
    rIdx, lIdx)

/-- The source's `Reverse`: swap the `left` flags across the pair and negate
both `increasing` flags; the `other` links are untouched. -/
def Store.Reverse (st : Store) (s : Nat) : Store :=
  let sp := st.mem s
  let t := sp.other
  let afterS := fun j =>
    if j = s then { sp with left := !sp.left, increasing := !sp.increasing } else st.mem j
  ⟨st.size,
    fun j =>
      if j = t then { afterS t with left := sp.left, increasing := !(st.mem t).increasing }
      else afterS j⟩

/-- The spec's symmetric-link invariant (§3 invariant 1): every endpoint's
partner lies in the store, is a distinct record (the two ends of a segment are
separately allocated pool objects), and points back: `e.other.other == e`. -/
def OtherInv (st : Store) : Prop :=
  ∀ i, i < st.size →
    (st.mem i).other < st.size ∧ (st.mem i).other ≠ i ∧
      (st.mem (st.mem i).other).other = i

instance (st : Store) : Decidable (OtherInv st) :=
  inferInstanceAs (Decidable (∀ i, i < st.size → _ ∧ _ ∧ _))

theorem Store.Reverse_mem_other (st : Store) (s j : Nat) :
    ((st.Reverse s).mem j).other = (st.mem j).other := by
  unfold Store.Reverse
  dsimp only
  by_cases h1 : j = (st.mem s).other
  · rw [if_pos h1]
    dsimp only
    by_cases h2 : (st.mem s).other = s
    · rw [if_pos h2]
      dsimp only
      rw [h1.trans h2]
    · rw [if_neg h2]
      rw [h1]
  · rw [if_neg h1]
    by_cases h2 : j = s
    · rw [if_pos h2]
      dsimp only
      rw [h2]
    · rw [if_neg h2]

theorem Store.Reverse_size (st : Store) (s : Nat) : (st.Reverse s).size = st.size := rfl

theorem otherInv_reverse (st : Store) (s : Nat) (hinv : OtherInv st) :
    OtherInv (st.Reverse s) := by
  intro i hi
  rw [Store.Reverse_size] at hi
  rw [Store.Reverse_size, Store.Reverse_mem_other, Store.Reverse_mem_other]
  exact hinv i hi

theorem otherInv_splitAt (st : Store) (s : Nat) (z : GF × GF)
    (hinv : OtherInv st) (hs : s < st.size) :
    OtherInv (st.SplitAt s z).1 := by
  obtain ⟨ht, hts, hback⟩ := hinv s hs
  have hst : ¬ s = (st.mem s).other := fun h => hts h.symm
  intro i hi
  unfold Store.SplitAt at hi ⊢
  dsimp only at hi ⊢
  have hsr : ¬ s = st.size := by omega
  have hsl : ¬ s = st.size + 1 := by omega
  have htr : ¬ (st.mem s).other = st.size := by omega
  have htl : ¬ (st.mem s).other = st.size + 1 := by omega
  by_cases hir : i = st.size
  · -- the fresh right endpoint `r`: its partner is `s`
    subst hir
    simp [hsr, hsl, hst, htr, htl]
    all_goals omega
  by_cases hil : i = st.size + 1
  · -- the fresh left endpoint `l`: its partner is the old partner `t`
    subst hil
    simp [hsr, hsl, hst, htr, htl, hts]
    all_goals omega
  by_cases his : i = s
  · -- `s` now points at the fresh right endpoint
    subst his
    simp [hsr, hsl, hst, htr, htl, hts, hir, hil]
    all_goals omega
  by_cases hit : i = (st.mem s).other
  · -- the old partner `t` now points at the fresh left endpoint
    subst hit
    simp [hsr, hsl, hst, htr, htl, hts, hir, hil]
    all_goals omega
  · -- untouched endpoints keep their links, which avoid `s` and `t`
    have hi' : i < st.size := by omega
    obtain ⟨ho1, ho2, ho3⟩ := hinv i hi'
    have hr1 : ¬ (st.mem i).other = st.size := by omega
    have hr2 : ¬ (st.mem i).other = st.size + 1 := by omega
    have hrs : ¬ (st.mem i).other = s := by
      intro hcon
      apply hit
      rw [hcon] at ho3
      exact ho3.symm
    have hrt : ¬ (st.mem i).other = (st.mem s).other := by
      intro hcon
      apply his
      rw [hcon, hback] at ho3
      exact ho3.symm
    simp [hir, hil, his, hit, hr1, hr2, hrs, hrt, ho3, ho2]
    all_goals omega

/-- Modelled from the spec: the flat command stream's command constants (§6);
the Go constants are not under `src/`, only their distinctness matters. -/
def MoveToCmd : GF := GF.fin 1

/-- Line-to command constant (see `MoveToCmd`). -/
def LineToCmd : GF := GF.fin 2

/-- Quadratic Bézier command constant (see `MoveToCmd`). -/
def QuadToCmd : GF := GF.fin 3

/-- Cubic Bézier command constant (see `MoveToCmd`). -/
def CubeToCmd : GF := GF.fin 4

/-- Elliptical arc command constant (see `MoveToCmd`). -/
def ArcToCmd : GF := GF.fin 5

/-- Close command constant (see `MoveToCmd`). -/
def CloseCmd : GF := GF.fin 6

/-- Modelled from the spec: the per-command slot count of the flat stream, as
forced by the source's own index arithmetic (the end point of a straight
command sits at `p.d[i+n-3]`, `p.d[i+n-2]`, and the command value is repeated
in the trailing slot). -/
def cmdLen (cmd : GF) : Nat :=
  if cmd.feq QuadToCmd then 6
  else if cmd.feq CubeToCmd || cmd.feq ArcToCmd then 8
  else 4

theorem cmdLen_pos (c : GF) : 0 < cmdLen c := by
  unfold cmdLen
  split
  · decide
  · split <;> decide

/-- The source's `Path`: a flat stream of command values and coordinates. -/
structure Path where
  d : List GF

/-- Modelled from the spec: a path is closed iff its final command is `Close`
(§7 "malformed close"); `Path.Closed` itself is not under `src/`. -/
def Path.Closed (p : Path) : Bool :=
  decide (0 < p.d.length) && (p.d.getD (p.d.length - 1) default).feq CloseCmd

/-- Outcome of `AddPathEndpoints`: the store, the queue of endpoint indices and
the running segment counter — or, on a Go `panic`, the message together with
the state at the moment of the panic. -/
def APResult := Except (String × Store × List Nat) (Store × List Nat × Int)

/-- The endpoint store in either outcome of `AddPathEndpoints`. -/
def APResult.store : APResult → Store
  | .ok (st, _, _) => st
  | .error (_, st, _) => st

/-- Allocate the two linked endpoints of one segment, as the source's
`a.other = b; b.other = a` after drawing both from the pool: `a` lands at index
`st.size` pointing at `b` at `st.size + 1`, and back. -/
def Store.pushPair (st : Store) (a b : SweepPoint) : Store :=
  ⟨st.size + 2, fun j =>
    if j = st.size then { a with other := st.size + 1 }
    else if j = st.size + 1 then { b with other := st.size }
    else st.mem j⟩

theorem otherInv_pushPair (st : Store) (a b : SweepPoint) (hinv : OtherInv st) :
    OtherInv (st.pushPair a b) := by
  intro i hi
  unfold Store.pushPair at hi ⊢
  dsimp only at hi ⊢
  by_cases h1 : i = st.size
  · subst h1
    simp
  by_cases h2 : i = st.size + 1
  · subst h2
    simp
  · have hi' : i < st.size := by omega
    obtain ⟨ho1, ho2, ho3⟩ := hinv i hi'
    have hr1 : ¬ (st.mem i).other = st.size := by omega
    have hr2 : ¬ (st.mem i).other = st.size + 1 := by omega
    simp [h1, h2, hr1, hr2, ho3, ho2]
    all_goals omega

/-- The loop of the source's `AddPathEndpoints` from stream index `i` onwards:
reject non-flat commands, malformed close commands and NaN/Inf coordinates
(Go `panic` becomes `Except.error` carrying the state built so far), skip
zero-length segments, and otherwise allocate the two linked endpoints of the
segment and append them to the queue. -/
def addPathLoop (d : List GF) (clipping isOpen : Bool) (fuel : Nat) (st : Store)
    (q : List Nat) (seg : Int) (start : GF × GF) (i : Nat) : APResult :=
  match fuel with
  | 0 => .ok (st, q, seg)
  | fuel + 1 =>
    if i < d.length then
    let cmd := d.getD i default
    if ¬ (cmd.feq LineToCmd || cmd.feq CloseCmd) then
      .error ("non-flat paths not supported", st, q)
    else if cmd.feq CloseCmd &&
        (!(d.getD (d.length - 3) default).feq (d.getD 1 default) ||
         !(d.getD (d.length - 2) default).feq (d.getD 2 default)) then
      .error ("invalid close command in path", st, q)
    else
      let n := cmdLen cmd
      let ex := d.getD (i + n - 3) default
      let ey := d.getD (i + n - 2) default
      if ex.isNaN || ex.isInf || ey.isNaN || ey.isInf then
        .error ("path has NaN or Inf", st, q)
      else
        let seg' := seg + 1
        if start.1.feq ex && start.2.feq ey then
          -- skip zero-length lineTo or close command
          addPathLoop d clipping isOpen fuel st q seg' start (i + n)
        else
          let vertical := start.1.feq ex
          let increasing := if vertical then start.2.flt ey else start.1.flt ex
          let a : SweepPoint :=
            { x := start.1, y := start.2, clipping := clipping, isOpen := isOpen,
              isEnd := isOpen && decide (i + n = 4 + n), segment := seg',
              left := increasing, increasing := increasing, vertical := vertical }
          let b : SweepPoint :=
            { x := ex, y := ey, clipping := clipping, isOpen := isOpen,
              isEnd := isOpen && decide (i + n = d.length), segment := seg',
              left := !increasing, increasing := increasing, vertical := vertical }
          addPathLoop d clipping isOpen fuel (st.pushPair a b)
            (q ++ [st.size, st.size + 1]) seg' (ex, ey) (i + n)
    else
      .ok (st, q, seg)

/-- The source's `AddPathEndpoints`: validates the start point, decides whether
the path counts as open (an unclosed path whose first and last points coincide
exactly is considered closed), and adds all line segments to the queue and the
endpoint store. -/
def AddPathEndpoints (st : Store) (q : List Nat) (p : Path) (seg : Int)
    (clipping : Bool) : APResult :=
  if p.d.length = 0 then .ok (st, q, seg)
  else
    let startx := p.d.getD 1 default
    let starty := p.d.getD 2 default
    if startx.isNaN || startx.isInf || starty.isNaN || starty.isInf then
      .error ("path has NaN or Inf", st, q)
    else
      let isOpen0 := !p.Closed
      let isOpen :=
        if isOpen0 && (p.d.getD (p.d.length - 3) default).feq startx &&
            (p.d.getD (p.d.length - 2) default).feq starty
          then false  -- start and end points coincide, consider path closed
          else isOpen0
      addPathLoop p.d clipping isOpen p.d.length st q seg (startx, starty) 4

theorem otherInv_addPathLoop (d : List GF) (clipping isOpen : Bool) :
    ∀ (fuel : Nat) (st : Store) (q : List Nat) (seg : Int) (start : GF × GF) (i : Nat),
      OtherInv st →
      OtherInv (addPathLoop d clipping isOpen fuel st q seg start i).store := by
  intro fuel
  induction fuel with
  | zero =>
      intro st q seg start i hinv
      exact hinv
  | succ m ih =>
      intro st q seg start i hinv
      rw [addPathLoop]
      by_cases hi : i < d.length
      · simp only [hi, if_true]
        split_ifs with h1 h2 h3 h4
        all_goals
          first
          | exact hinv
          | exact ih st q (seg + 1) start (i + cmdLen (d.getD i default)) hinv
          | exact ih _ _ (seg + 1) _ (i + cmdLen (d.getD i default))
              (otherInv_pushPair st _ _ hinv)
      · simp only [hi, if_false]
        exact hinv

theorem addPathLoop_isOpen_inv (d : List GF) (clipping isOpen : Bool) (base : Nat) :
    ∀ (fuel : Nat) (st : Store) (q : List Nat) (seg : Int) (start : GF × GF) (i : Nat),
      (∀ k, base ≤ k → k < st.size → (st.mem k).isOpen = isOpen) →
      ∀ k, base ≤ k →
        k < (addPathLoop d clipping isOpen fuel st q seg start i).store.size →
        ((addPathLoop d clipping isOpen fuel st q seg start i).store.mem k).isOpen
          = isOpen := by
  intro fuel
  induction fuel with
  | zero =>
      intro st q seg start i hbase k hk1 hk2
      exact hbase k hk1 hk2
  | succ m ih =>
      intro st q seg start i hbase k hk1 hk2
      rw [addPathLoop] at hk2 ⊢
      by_cases hi : i < d.length
      · simp only [hi, if_true] at hk2 ⊢
        split_ifs at hk2 ⊢ with h1 h2 h3 h4
        all_goals
          first
          | exact hbase k hk1 hk2
          | exact ih st q (seg + 1) start (i + cmdLen (d.getD i default)) hbase k hk1 hk2
          | (refine ih _ _ (seg + 1) _ (i + cmdLen (d.getD i default)) ?_ k hk1 hk2
             intro j hj1 hj2
             unfold Store.pushPair at hj2 ⊢
             dsimp only at hj2 ⊢
             by_cases hja : j = st.size
             · simp [hja]
             · by_cases hjb : j = st.size + 1
               · simp [hja, hjb]
               · rw [if_neg hja, if_neg hjb]
                 have hjlt : j < st.size := by omega
                 exact hbase j hj1 hjlt)
      · simp only [hi, if_false] at hk2 ⊢
        exact hbase k hk1 hk2


/-- The empty endpoint store. -/
def emptyStore : Store := ⟨0, fun _ => default⟩

/-- A two-endpoint store holding one correctly linked segment. -/
def pairStore : Store :=
  ⟨2, fun i => if i = 0 then { other := 1 } else if i = 1 then { other := 0 } else default⟩

/-- A closed triangle-free sample path: MoveTo (0,0), LineTo (1,0), Close. -/
def samplePathClosed : Path :=
  ⟨[MoveToCmd, GF.fin 0, GF.fin 0, MoveToCmd,
    LineToCmd, GF.fin 1, GF.fin 0, LineToCmd,
    CloseCmd, GF.fin 0, GF.fin 0, CloseCmd]⟩

/-- An unclosed polyline whose first and last points coincide exactly:
MoveTo (0,0), LineTo (1,0), LineTo (0,0) — no Close command. -/
def samplePathCoincide : Path :=
  ⟨[MoveToCmd, GF.fin 0, GF.fin 0, MoveToCmd,
    LineToCmd, GF.fin 1, GF.fin 0, LineToCmd,
    LineToCmd, GF.fin 0, GF.fin 0, LineToCmd]⟩

/-- C3: for every endpoint e in any intermediate state of the sweep,
e.other.other == e: creating the two linked endpoints of an input segment
(`AddPathEndpoints`), splitting a segment at a point (`SplitAt`), and reversing
a segment (`Reverse`) each preserve the symmetric other-link (together with its
companion facts that the link stays inside the store and joins two distinct
records). -/
theorem endpoint_other_involution (st : Store) (q : List Nat) (p : Path)
    (seg : Int) (clipping : Bool) (s : Nat) (z : GF × GF)
    (hinv : OtherInv st) (hs : s < st.size) :
    OtherInv (AddPathEndpoints st q p seg clipping).store ∧
    OtherInv (st.SplitAt s z).1 ∧
    OtherInv (st.Reverse s) := by
  refine ⟨?_, otherInv_splitAt st s z hinv hs, otherInv_reverse st s hinv⟩
  unfold AddPathEndpoints
  dsimp only
  split_ifs with h1 h2 h3
  all_goals
    first
    | exact hinv
    | exact otherInv_addPathLoop p.d clipping _ p.d.length st q seg _ 4 hinv

/-- C3 witness: the preservation theorem applied to the concrete linked pair
store, a concrete closed path, a split of segment 0 at (1,1), and a reversal of
segment 0. -/
theorem endpoint_other_involution_witness :
    OtherInv pairStore ∧ 0 < pairStore.size ∧
    (OtherInv (AddPathEndpoints pairStore [] samplePathClosed 0 false).store ∧
     OtherInv (pairStore.SplitAt 0 (GF.fin 1, GF.fin 1)).1 ∧
     OtherInv (pairStore.Reverse 0)) :=
  ⟨by decide, by decide,
   endpoint_other_involution pairStore [] samplePathClosed 0 false 0 (GF.fin 1, GF.fin 1)
     (by decide) (by decide)⟩

/-- C10: for every input path that is not closed but whose first and last
points coincide exactly, `AddPathEndpoints` treats the path as closed: every
event it creates for that path has open = false (so its segments follow the
closed-segment selection rules rather than the open-subject rules). -/
theorem addPathEndpoints_coincide_treated_closed (st : Store) (q : List Nat)
    (p : Path) (seg : Int) (clipping : Bool)
    (hopen : p.Closed = false)
    (hx : (p.d.getD (p.d.length - 3) default).feq (p.d.getD 1 default) = true)
    (hy : (p.d.getD (p.d.length - 2) default).feq (p.d.getD 2 default) = true) :
    ∀ k, st.size ≤ k →
      k < (AddPathEndpoints st q p seg clipping).store.size →
      ((AddPathEndpoints st q p seg clipping).store.mem k).isOpen = false := by
  intro k hk1 hk2
  unfold AddPathEndpoints at hk2 ⊢
  dsimp only at hk2 ⊢
  split_ifs at hk2 ⊢ with h1 h2 h3
  · -- empty path: no events are created
    simp only [APResult.store] at hk2
    omega
  · -- non-finite start point: the panic carries the untouched store
    simp only [APResult.store] at hk2
    omega
  · -- the open flag was forced to false; no created endpoint is open
    exact addPathLoop_isOpen_inv p.d clipping false st.size p.d.length st q seg _ 4
      (fun j hj1 hj2 => absurd hj2 (by omega)) k hk1 hk2
  · -- the coincidence hypothesis contradicts taking the open branch
    exfalso
    simp_all [List.getD]

/-- C10 witness: the theorem applied to the concrete unclosed polyline whose
endpoints coincide; the first endpoint created for it is not open. -/
theorem addPathEndpoints_coincide_treated_closed_witness :
    samplePathCoincide.Closed = false ∧
    (samplePathCoincide.d.getD (samplePathCoincide.d.length - 3) default).feq
      (samplePathCoincide.d.getD 1 default) = true ∧
    (samplePathCoincide.d.getD (samplePathCoincide.d.length - 2) default).feq
      (samplePathCoincide.d.getD 2 default) = true ∧
    ((AddPathEndpoints emptyStore [] samplePathCoincide 0 false).store.mem 0).isOpen
      = false :=
  ⟨by decide, by decide, by decide,
   addPathEndpoints_coincide_treated_closed emptyStore [] samplePathCoincide 0 false
     (by decide) (by decide) (by decide) 0 (by decide) (by decide)⟩

/-! ## The right-event intersection clamp of `addIntersections` (C5) -/

/-- A planar point over exact coordinates, for the pure geometric code paths. -/
structure PointQ where
  x : ℚ
  y : ℚ
  deriving DecidableEq

/-- The body of the clamp loop in the source's `addIntersections`, executed
when the current event is a right-endpoint: an intersection whose x lies left
of the event has its x set to the event's x; otherwise, an intersection at the
event's x but below it has its y set to the event's y. The out-of-segment
check that follows only prints a warning — this path has no panic. -/
def clampOne (event z : PointQ) : PointQ :=
  if z.x < event.x then { z with x := event.x }
  else if z.x = event.x ∧ z.y < event.y then { z with y := event.y }
  else z

/-- The clamp loop of the source's `addIntersections` over the candidate
intersection list. The list itself comes from the intersection primitive,
which is not under `src/`; the loop is embedded over an arbitrary list. -/
def clampIntersections (event : PointQ) (zs : List PointQ) : List PointQ :=
  zs.map (clampOne event)

/-- C5 counterexample: the claim asserts every pushed intersection has
y ≥ the event's y whenever its x equals the event's x; for the event (0,0)
and the candidate intersection (-1,-1) the clamp yields (0,-1), whose x equals
the event's x while its y is below the event's y. -/
theorem addIntersections_clamp_counterexample :
    ¬ (∀ z ∈ clampIntersections ⟨0, 0⟩ [⟨-1, -1⟩],
        (0 : ℚ) ≤ z.x ∧ (z.x = 0 → (0 : ℚ) ≤ z.y)) := by
  decide

/-- C5 (amended): when `addIntersections` runs at a right-endpoint event,
every clamped intersection has x ≥ the event's x; an intersection whose
original x equals the event's x is lifted to y ≥ the event's y; an
intersection whose original x lies strictly left of the event keeps its y and
only its x is clamped to the event's x. The loop is total (same length out as
in): this path warns and never panics. -/
theorem addIntersections_clamp_amended (event : PointQ) (zs : List PointQ) :
    (clampIntersections event zs).length = zs.length ∧
    ∀ z ∈ zs,
      event.x ≤ (clampOne event z).x ∧
      (z.x = event.x → event.y ≤ (clampOne event z).y) ∧
      (z.x < event.x → clampOne event z = { z with x := event.x }) := by
  refine ⟨List.length_map _ _, ?_⟩
  intro z _
  unfold clampOne
  by_cases h1 : z.x < event.x
  · rw [if_pos h1]
    refine ⟨le_refl _, ?_, fun _ => rfl⟩
    intro he
    exact absurd he (ne_of_lt h1)
  · rw [if_neg h1]
    by_cases h2 : z.x = event.x ∧ z.y < event.y
    · rw [if_pos h2]
      exact ⟨le_of_eq h2.1.symm, fun _ => le_refl _, fun hlt => absurd hlt h1⟩
    · rw [if_neg h2]
      refine ⟨le_of_not_lt h1, ?_, fun hlt => absurd hlt h1⟩
      intro he
      rcases lt_or_le z.y event.y with hy | hy
      · exact absurd ⟨he, hy⟩ h2
      · exact hy

/-- C5 witness: the amended theorem applied at the event (0,0) and the
candidate list [(-1,-1)], discharging the membership hypothesis there. -/
theorem addIntersections_clamp_amended_witness :
    (clampIntersections ⟨0, 0⟩ [⟨-1, -1⟩]).length = 1 ∧
    ((⟨-1, -1⟩ : PointQ) ∈ ([⟨-1, -1⟩] : List PointQ) ∧
      (0 : ℚ) ≤ (clampOne ⟨0, 0⟩ ⟨-1, -1⟩).x ∧
      ((-1 : ℚ) = 0 → (0 : ℚ) ≤ (clampOne ⟨0, 0⟩ ⟨-1, -1⟩).y) ∧
      ((-1 : ℚ) < 0 → clampOne ⟨0, 0⟩ ⟨-1, -1⟩ = ⟨0, -1⟩)) :=
  ⟨(addIntersections_clamp_amended ⟨0, 0⟩ [⟨-1, -1⟩]).1,
   by decide,
   (addIntersections_clamp_amended ⟨0, 0⟩ [⟨-1, -1⟩]).2 ⟨-1, -1⟩ (by decide)⟩

/-! ## The vertical comparators (C6) -/

/-- The fields of a `SweepPoint` and of its partner that the pure vertical
comparators read, flattened into one record over exact coordinates
(`otherX`/`otherY` stand for `s.other.X`/`s.other.Y`). -/
structure SegView where
  x : ℚ
  y : ℚ
  otherX : ℚ
  otherY : ℚ
  left : Bool
  vertical : Bool
  clipping : Bool
  segment : Int
  deriving DecidableEq

/-- The source's `InterpolateY`: the segment's y at abscissa `x`.
`Point.Interpolate` is not under `src/` and is modelled from the spec
("by linear interpolation", §4.2) as the standard lerp; division is exact
rational division. -/
def SegView.InterpolateY (s : SegView) (x : ℚ) : ℚ :=
  let t := (x - s.x) / (s.otherX - s.x)
  s.y + t * (s.otherY - s.y)

/-- The source's `compareOverlapsV`: tie-break for coinciding (overlapping)
segments — across inputs first, then by segment index. -/
def SegView.compareOverlapsV (a b : SegView) : Int :=
  if a.clipping ≠ b.clipping then
    -- for equal segments, clipping path is virtually on top of subject
    if b.clipping then -1 else 1
  else if a.segment ≠ b.segment then
    -- equal segment on same path, sort by segment index
    if a.segment < b.segment then -1 else 1
  else 0

/-- The source's `compareTangentsV`: compare segments sharing the point
(a.x, a.y), by vertical flags, then by the y of the other endpoints at the
common x, signed by whether the shared point is a left or a right endpoint. -/
def SegView.compareTangentsV (a b : SegView) : Int :=
  let sign : Int := if a.left then 1 else -1
  if a.vertical then
    if b.vertical then
      if a.y = b.y then sign * a.compareOverlapsV b
      else if a.y < b.y then -1
      else 1
    else 1
  else if b.vertical then -1
  else if a.otherX = b.otherX ∧ a.otherY = b.otherY then sign * a.compareOverlapsV b
  else if (a.left = true ∧ a.otherX < b.otherX) ∨ (a.left = false ∧ b.otherX < a.otherX) then
    let y0 := b.InterpolateY a.otherX
    if a.otherY = y0 then sign * a.compareOverlapsV b
    else if a.otherY < y0 then sign * (-1)
    else sign * 1
  else
    let y0 := a.InterpolateY b.otherX
    if y0 = b.otherY then sign * a.compareOverlapsV b
    else if y0 < b.otherY then sign * (-1)
    else sign * 1

/-- The source's lower-case `compareV`: compare at `a.x` with `b.x < a.x`. -/
def SegView.compareV (a b : SegView) : Int :=
  let y0 := b.InterpolateY a.x
  if a.y = y0 then a.compareTangentsV b
  else if a.y < y0 then -1
  else 1

/-- The source's `CompareV`: the sweep-status vertical order. -/
def SegView.CompareV (a b : SegView) : Int :=
  if a.x = b.x then
    if a.y = b.y then a.compareTangentsV b
    else if a.y < b.y then -1
    else 1
  else if a.x < b.x then -(b.compareV a)
  else a.compareV b

/-- C6 counterexample: the claim orders a clipping-origin segment before the
coinciding subject-origin segment, which would need `CompareV` of the clipping
view against the subject view to be negative; on the concrete coinciding pair
(0,0)→(1,1) it is 1 (the subject sorts first). -/
theorem compareV_clipping_before_subject_counterexample :
    ¬ (({ x := 0, y := 0, otherX := 1, otherY := 1, left := true, vertical := false,
          clipping := true, segment := 1 } : SegView).CompareV
        { x := 0, y := 0, otherX := 1, otherY := 1, left := true, vertical := false,
          clipping := false, segment := 1 } < 0) := by
  decide

/-- C6 (amended): whenever two segments coincide point-for-point (same
endpoints after snapping, compared as left endpoints with consistent vertical
flags), the vertical comparator orders the subject-origin segment before the
clipping-origin segment (the source comment: the clipping path is virtually on
top of the subject), and within the same origin it orders the segment with the
lower segment id first. -/
theorem compareV_coincident_tie_break (a b : SegView)
    (hx : a.x = b.x) (hy : a.y = b.y) (hox : a.otherX = b.otherX)
    (hoy : a.otherY = b.otherY) (hl : a.left = true) (hv : a.vertical = b.vertical) :
    (a.clipping = false → b.clipping = true → a.CompareV b = -1) ∧
    (a.clipping = true → b.clipping = false → a.CompareV b = 1) ∧
    (a.clipping = b.clipping → a.segment < b.segment → a.CompareV b = -1) ∧
    (a.clipping = b.clipping → b.segment < a.segment → a.CompareV b = 1) := by
  obtain ⟨ax, ay, aox, aoy, al, av, ac, aseg⟩ := a
  obtain ⟨bx, by0, box, boy, bl, bv, bc, bseg⟩ := b
  simp only at hx hy hox hoy hl hv
  subst hx hy hox hoy hl hv
  unfold SegView.CompareV SegView.compareTangentsV SegView.compareOverlapsV
  simp only
  cases av <;>
    refine ⟨?_, ?_, ?_, ?_⟩ <;> intro hc1 hc2 <;> subst hc1 <;>
      first
        | (subst hc2; simp <;> omega)
        | (simp [hc2] <;> split_ifs <;> omega)
        | (simp [hc2] <;> omega)
        | simp [hc2]

/-- A subject-origin view of the segment (0,0)→(1,1), id 1. -/
def sVsub : SegView :=
  { x := 0, y := 0, otherX := 1, otherY := 1, left := true, vertical := false,
    clipping := false, segment := 1 }

/-- A clipping-origin view of the same segment (0,0)→(1,1), id 2. -/
def sVclip : SegView :=
  { x := 0, y := 0, otherX := 1, otherY := 1, left := true, vertical := false,
    clipping := true, segment := 2 }

/-- C6 witness: the amended tie-break applied to a concrete coinciding pair
(a subject view and a clipping view of the segment (0,0)→(1,1)). -/
theorem compareV_coincident_tie_break_witness :
    (sVsub.x = sVclip.x ∧ sVsub.y = sVclip.y ∧ sVsub.otherX = sVclip.otherX ∧
     sVsub.otherY = sVclip.otherY ∧ sVsub.left = true ∧
     sVsub.vertical = sVclip.vertical) ∧
    ((sVsub.clipping = false → sVclip.clipping = true → sVsub.CompareV sVclip = -1) ∧
     (sVsub.clipping = true → sVclip.clipping = false → sVsub.CompareV sVclip = 1) ∧
     (sVsub.clipping = sVclip.clipping → sVsub.segment < sVclip.segment →
       sVsub.CompareV sVclip = -1) ∧
     (sVsub.clipping = sVclip.clipping → sVclip.segment < sVsub.segment →
       sVsub.CompareV sVclip = 1)) :=
  ⟨⟨rfl, rfl, rfl, rfl, rfl, rfl⟩,
   compareV_coincident_tie_break sVsub sVclip rfl rfl rfl rfl rfl rfl⟩

/-! ## `RayIntersections` (C9) -/

/-- Modelled from the spec: the intersection tolerance `Epsilon` (§6 requires
`Epsilon` < `GridEpsilon` = 1e-8); the source constant (1e-10) is not under
`src/`. -/
def Epsilon : ℚ := 1 / 10000000000

/-- Modelled from the spec: interval membership up to `Epsilon`; the Go
helper `Interval` is not under `src/`. -/
def Interval (t a b : ℚ) : Bool :=
  decide (a - Epsilon ≤ t) && decide (t ≤ b + Epsilon)

/-- Modelled from the spec: float equality up to `Epsilon`; the Go helper
`Equal` is not under `src/`. -/
def Equal (a b : ℚ) : Bool :=
  decide (|a - b| ≤ Epsilon)

/-- The fields of the source's `Intersection` that `RayIntersections` reads
and writes: the position and the two line parameters (`T[0]`, the parameter
along the ray, is set to NaN away from the ray start, so both live in `GF`). -/
structure Intersection where
  x : ℚ
  y : ℚ
  t0 : GF
  t1 : GF
  deriving DecidableEq

/-- Modelled from the spec (§4.3): the straight segment-segment intersection
primitive is not under `src/`. For non-parallel carrier lines it reports the
crossing point with its parameters along both segments when it lies inside
both parameter ranges; for collinear segments it reports the overlap interval
endpoints (two points, per §4.3). -/
def segSegIntersections (a0 a1 b0 b1 : PointQ) : List Intersection :=
  let dax := a1.x - a0.x
  let day := a1.y - a0.y
  let dbx := b1.x - b0.x
  let dby := b1.y - b0.y
  let denom := dax * dby - day * dbx
  if denom ≠ 0 then
    let ta := ((b0.x - a0.x) * dby - (b0.y - a0.y) * dbx) / denom
    let tb := ((b0.x - a0.x) * day - (b0.y - a0.y) * dax) / denom
    if 0 ≤ ta ∧ ta ≤ 1 ∧ 0 ≤ tb ∧ tb ≤ 1 then
      [{ x := a0.x + ta * dax, y := a0.y + ta * day, t0 := GF.fin ta, t1 := GF.fin tb }]
    else []
  else if (b0.x - a0.x) * day - (b0.y - a0.y) * dax ≠ 0 then []
  else
    let len2 := dax * dax + day * day
    let lb2 := dbx * dbx + dby * dby
    if len2 = 0 ∨ lb2 = 0 then []
    else
      let u0 := ((b0.x - a0.x) * dax + (b0.y - a0.y) * day) / len2
      let u1 := ((b1.x - a0.x) * dax + (b1.y - a0.y) * day) / len2
      let lo := max 0 (min u0 u1)
      let hi := min 1 (max u0 u1)
      if lo ≤ hi then
        if lo = hi then
          [{ x := a0.x + lo * dax, y := a0.y + lo * day, t0 := GF.fin lo,
             t1 := GF.fin ((lo - u0) / (u1 - u0)) }]
        else
          [{ x := a0.x + lo * dax, y := a0.y + lo * day, t0 := GF.fin lo,
             t1 := GF.fin ((lo - u0) / (u1 - u0)) },
           { x := a0.x + hi * dax, y := a0.y + hi * day, t0 := GF.fin hi,
             t1 := GF.fin ((hi - u0) / (u1 - u0)) }]
      else []

/-- Modelled from the spec: `intersectionLineLine` appends the intersections
of two segments to `zs`; not under `src/`. -/
def intersectionLineLine (zs : List Intersection) (a0 a1 b0 b1 : PointQ) :
    List Intersection :=
  zs ++ segSegIntersections a0 a1 b0 b1

/-- The flat command constants over exact rationals for the ray primitive
(mirror of `MoveToCmd` and friends over `GF`). -/
def MoveToQ : ℚ := 1

/-- Line-to command value over rationals. -/
def LineToQ : ℚ := 2

/-- Quadratic Bézier command value over rationals. -/
def QuadToQ : ℚ := 3

/-- Cubic Bézier command value over rationals. -/
def CubeToQ : ℚ := 4

/-- Elliptical arc command value over rationals. -/
def ArcToQ : ℚ := 5

/-- Close command value over rationals. -/
def CloseQ : ℚ := 6

/-- Slot count per command over rationals (see `cmdLen`). -/
def cmdLenQ (c : ℚ) : Nat :=
  if c = QuadToQ then 6 else if c = CubeToQ ∨ c = ArcToQ then 8 else 4

/-- The loop of the source's `RayIntersections` over the flat stream: for each
line or close command whose y-range contains the ray level (up to `Epsilon`)
and whose x-range is not entirely left of the ray origin, intersect the
segment with the horizontal segment from (x, y) to (xmax + 1, y); every
command updates `start` to its end point. The curve commands contribute
nothing here: the curve intersection primitives are not under `src/` and the
claims exercise only flat paths. -/
def rayLoop (d : List ℚ) (x y : ℚ) (fuel : Nat) (zs : List Intersection)
    (start : PointQ) (i : Nat) : List Intersection :=
  match fuel with
  | 0 => zs
  | fuel + 1 =>
    if i < d.length then
      let cmd := d.getD i 0
      let n := cmdLenQ cmd
      let e : PointQ := ⟨d.getD (i + n - 3) 0, d.getD (i + n - 2) 0⟩
      let zs' :=
        if cmd = LineToQ ∨ cmd = CloseQ then
          let ymin := min start.y e.y
          let ymax := max start.y e.y
          let xmax := max start.x e.x
          if Interval y ymin ymax && decide (x ≤ xmax + Epsilon) then
            intersectionLineLine zs ⟨x, y⟩ ⟨xmax + 1, y⟩ start e
          else zs
        else zs
      rayLoop d x y fuel zs' e (i + n)
    else zs

/-- Stable insertion of one element for the model of `sort.SliceStable`. -/
def insertStableZ (less : Intersection → Intersection → Bool) (z : Intersection) :
    List Intersection → List Intersection
  | [] => [z]
  | w :: ws => if less z w then z :: w :: ws else w :: insertStableZ less z ws

/-- Stable insertion sort, the model of the source's `sort.SliceStable`. -/
def sortStableZ (less : Intersection → Intersection → Bool) :
    List Intersection → List Intersection
  | [] => []
  | z :: zs => insertStableZ less z (sortStableZ less zs)

/-- The source's `RayIntersections`: collect the intersections of the path
with the ray from (x, y) towards +x, set the ray parameter of every
intersection that is not at the ray start to NaN, and stable-sort along the
ray (x-ties keep their order). -/
def RayIntersections (d : List ℚ) (x y : ℚ) : List Intersection :=
  let zs := rayLoop d x y d.length [] ⟨0, 0⟩ 0
  let zs := zs.map fun z => if z.t0.feq (GF.fin 0) then z else { z with t0 := GF.nan }
  sortStableZ (fun a b => if Equal a.x b.x then false else decide (a.x < b.x)) zs

/-- The closed square (0,0)→(2,0)→(2,2)→(0,2) of scenario S6 as a flat
command stream. -/
def squareD : List ℚ :=
  [MoveToQ, 0, 0, MoveToQ,
   LineToQ, 2, 0, LineToQ,
   LineToQ, 2, 2, LineToQ,
   LineToQ, 0, 2, LineToQ,
   CloseQ, 0, 0, CloseQ]

set_option maxHeartbeats 2000000 in
/-- C9 counterexample: the claim gives the first returned intersection the ray
parameter T = 0, but the ray origin (−1, 1/2) does not lie on the square, so
the source's post-pass (T is zero only at the ray start, NaN otherwise) turns
the first parameter into NaN. -/
theorem rayIntersections_square_counterexample :
    ¬ ((RayIntersections squareD (-1) (1/2)).head?.map Intersection.t0
        = some (GF.fin 0)) := by
  norm_num [RayIntersections, rayLoop, squareD, cmdLenQ, MoveToQ, LineToQ, QuadToQ,
    CubeToQ, ArcToQ, CloseQ, intersectionLineLine, segSegIntersections, Interval,
    Equal, Epsilon, insertStableZ, sortStableZ, GF.feq, List.getD]
  decide

set_option maxHeartbeats 2000000 in
/-- C9 (amended): for the closed square (0,0)→(2,0)→(2,2)→(0,2),
`RayIntersections` at (−1, 1/2) returns exactly two intersections sorted along
the ray, the first at x = 0 and the second at x = 2, and both ray parameters
are NaN (T is zero only when the intersection is at the ray start, which is
not on the path here). -/
theorem rayIntersections_square_amended :
    (RayIntersections squareD (-1) (1/2)).map (fun z => (z.x, z.t0))
      = [((0 : ℚ), GF.nan), ((2 : ℚ), GF.nan)] := by
  norm_num [RayIntersections, rayLoop, squareD, cmdLenQ, MoveToQ, LineToQ, QuadToQ,
    CubeToQ, ArcToQ, CloseQ, intersectionLineLine, segSegIntersections, Interval,
    Equal, Epsilon, insertStableZ, sortStableZ, GF.feq, List.getD]

/-! ## `mergeOverlapping` (C8) -/

/-- Number of endpoints in the store not yet marked `overlapped`: the
decreasing measure of the source's merge loop, whose body marks exactly one
unmarked predecessor per iteration. -/
def unmarked (st : Store) : Nat :=
  ((Finset.range st.size).filter fun i => (st.mem i).overlapped = false).card

/-- Go's `s.Point == prev.Point && s.other.Point == prev.other.Point` over the
store: both endpoints of the two segments coincide under float equality. -/
def pointsMatch (st : Store) (s p : Nat) : Bool :=
  (st.mem s).x.feq (st.mem p).x && (st.mem s).y.feq (st.mem p).y &&
    (st.mem (st.mem s).other).x.feq (st.mem (st.mem p).other).x &&
    (st.mem (st.mem s).other).y.feq (st.mem (st.mem p).other).y

/-- One iteration body of the source's merge loop at predecessor `p`:
accumulate `p`'s self windings into `s` (sign-flipped across the clipping
boundary), zero `p`'s winding fields and the selection flags of both of its
endpoints, and mark `p` handled. The writes mirror the source order: `s`
first, then `p`, then the `inResult` of `p`'s partner. -/
def mergeStep (st : Store) (s p : Nat) : Store :=
  let sp := st.mem s
  let pp := st.mem p
  let o := pp.other
  let s1 :=
    if sp.clipping = pp.clipping then
      { sp with selfWindings := sp.selfWindings + pp.selfWindings,
                otherSelfWindings := sp.otherSelfWindings + pp.otherSelfWindings }
    else
      { sp with selfWindings := sp.selfWindings + pp.otherSelfWindings,
                otherSelfWindings := sp.otherSelfWindings + pp.selfWindings }
  let mem1 := fun j => if j = s then s1 else st.mem j
  let p2 :=
    { pp with
      windings := 0
      selfWindings := 0
      otherWindings := 0
      otherSelfWindings := 0
      inResult := 0
      overlapped := true }
  let mem2 := fun j => if j = p then p2 else mem1 j
  ⟨st.size, fun j => if j = o then { mem2 o with inResult := 0 } else mem2 j⟩

theorem mergeStep_size (st : Store) (s p : Nat) : (mergeStep st s p).size = st.size := rfl

theorem mergeStep_mem (st : Store) (s p j : Nat) :
    ((mergeStep st s p).mem j).x = (st.mem j).x ∧
    ((mergeStep st s p).mem j).y = (st.mem j).y ∧
    ((mergeStep st s p).mem j).other = (st.mem j).other ∧
    ((mergeStep st s p).mem j).prev = (st.mem j).prev ∧
    ((st.mem j).overlapped = true → ((mergeStep st s p).mem j).overlapped = true) := by
  unfold mergeStep
  dsimp only
  by_cases ho : j = (st.mem p).other
  · rw [if_pos ho]
    by_cases hop : (st.mem p).other = p
    · rw [if_pos hop]
      rw [ho, hop]
      exact ⟨rfl, rfl, hop.symm, rfl, fun _ => rfl⟩
    · rw [if_neg hop]
      by_cases hos : (st.mem p).other = s
      · rw [if_pos hos]
        rw [ho, hos]
        by_cases hc : (st.mem s).clipping = (st.mem p).clipping
        · rw [if_pos hc]
          exact ⟨rfl, rfl, rfl, rfl, fun h => h⟩
        · rw [if_neg hc]
          exact ⟨rfl, rfl, rfl, rfl, fun h => h⟩
      · rw [if_neg hos]
        rw [ho]
        exact ⟨rfl, rfl, rfl, rfl, fun h => h⟩
  · rw [if_neg ho]
    by_cases hp : j = p
    · rw [if_pos hp]
      rw [hp]
      exact ⟨rfl, rfl, rfl, rfl, fun _ => rfl⟩
    · rw [if_neg hp]
      by_cases hs : j = s
      · rw [if_pos hs]
        rw [hs]
        by_cases hc : (st.mem s).clipping = (st.mem p).clipping
        · rw [if_pos hc]
          exact ⟨rfl, rfl, rfl, rfl, fun h => h⟩
        · rw [if_neg hc]
          exact ⟨rfl, rfl, rfl, rfl, fun h => h⟩
      · rw [if_neg hs]
        exact ⟨rfl, rfl, rfl, rfl, fun h => h⟩

theorem mergeStep_overlapped_p (st : Store) (s p : Nat) :
    ((mergeStep st s p).mem p).overlapped = true := by
  unfold mergeStep
  dsimp only
  by_cases ho : p = (st.mem p).other
  · rw [if_pos ho, if_pos ho.symm]
  · rw [if_neg ho, if_pos rfl]

theorem unmarked_lt_of (st st' : Store) (p : Nat) (hp : p < st.size)
    (hsize : st'.size = st.size)
    (hmono : ∀ j, (st.mem j).overlapped = true → (st'.mem j).overlapped = true)
    (hp2 : (st'.mem p).overlapped = true)
    (hup : (st.mem p).overlapped = false) :
    unmarked st' < unmarked st := by
  unfold unmarked
  rw [hsize]
  apply Finset.card_lt_card
  have hsub : ((Finset.range st.size).filter fun i => (st'.mem i).overlapped = false) ⊆
      ((Finset.range st.size).filter fun i => (st.mem i).overlapped = false) := by
    intro j hj
    rw [Finset.mem_filter] at hj ⊢
    refine ⟨hj.1, ?_⟩
    by_contra hcon
    have : (st.mem j).overlapped = true := by
      cases hov : (st.mem j).overlapped
      · exact absurd hov hcon
      · rfl
    rw [hmono j this] at hj
    exact absurd hj.2 (by simp)
  rw [Finset.ssubset_iff_of_subset hsub]
  refine ⟨p, ?_, ?_⟩
  · rw [Finset.mem_filter]
    exact ⟨Finset.mem_range.mpr hp, hup⟩
  · rw [Finset.mem_filter]
    intro hcon
    rw [hp2] at hcon
    exact absurd hcon.2 (by simp)

/-- The merge loop of the source's `mergeOverlapping`: walk back through
`prev` while the predecessor is unhandled and has the same endpoints,
accumulating into `s` and marking each predecessor; stop at the first
predecessor that breaks the scan (and return it together with the store).
A predecessor index outside the store cannot arise from the source's heap and
is treated like the break on a handled pointer. Each executed iteration marks
one more endpoint, so the walk terminates. -/
def mergeLoop (st : Store) (s : Nat) (p? : Option Nat) : Store × Option Nat :=
  match p? with
  | none => (st, none)
  | some p =>
    if h : p < st.size ∧ (st.mem p).overlapped = false ∧ pointsMatch st s p = true then
      mergeLoop (mergeStep st s p) s ((st.mem p).prev)
    else
      (st, some p)
termination_by unmarked st
decreasing_by
  exact unmarked_lt_of st (mergeStep st s p) p h.1 (mergeStep_size st s p)
    (fun j hj => (mergeStep_mem st s p j).2.2.2.2 hj) (mergeStep_overlapped_p st s p) h.2.1
/-- The break condition of the source's merge loop: a nil pointer (or one
outside the store), an already-handled predecessor, or different endpoints. -/
def mergeBreak (st : Store) (s : Nat) : Option Nat → Prop
  | none => True
  | some p => ¬ (p < st.size ∧ (st.mem p).overlapped = false ∧ pointsMatch st s p = true)

theorem mergeLoop_of_break (st : Store) (s : Nat) (p? : Option Nat)
    (h : mergeBreak st s p?) : mergeLoop st s p? = (st, p?) := by
  cases p? with
  | none => rw [mergeLoop]
  | some p =>
      rw [mergeLoop]
      exact dif_neg h

theorem mergeLoop_post (st : Store) (s : Nat) (p? : Option Nat) :
    (mergeLoop st s p?).1.size = st.size ∧
    (∀ j, ((mergeLoop st s p?).1.mem j).x = (st.mem j).x ∧
          ((mergeLoop st s p?).1.mem j).y = (st.mem j).y ∧
          ((mergeLoop st s p?).1.mem j).other = (st.mem j).other ∧
          ((mergeLoop st s p?).1.mem j).prev = (st.mem j).prev) ∧
    (∀ j, (st.mem j).overlapped = true →
      ((mergeLoop st s p?).1.mem j).overlapped = true) ∧
    mergeBreak (mergeLoop st s p?).1 s (mergeLoop st s p?).2 := by
  induction st, s, p? using mergeLoop.induct with
  | case1 st s =>
      rw [mergeLoop_of_break st s none trivial]
      exact ⟨rfl, fun j => ⟨rfl, rfl, rfl, rfl⟩, fun j h => h, trivial⟩
  | case2 st s p h ih =>
      have heq : mergeLoop st s (some p)
          = mergeLoop (mergeStep st s p) s ((st.mem p).prev) := by
        rw [mergeLoop]
        exact dif_pos h
      rw [heq]
      obtain ⟨ihsize, ihgeom, ihmono, ihbrk⟩ := ih
      refine ⟨by rw [ihsize, mergeStep_size], ?_, ?_, ihbrk⟩
      · intro j
        obtain ⟨gx, gy, go, gp⟩ := ihgeom j
        obtain ⟨mx, my, mo, mp, _⟩ := mergeStep_mem st s p j
        exact ⟨gx.trans mx, gy.trans my, go.trans mo, gp.trans mp⟩
      · intro j hj
        exact ihmono j ((mergeStep_mem st s p j).2.2.2.2 hj)
  | case3 st s p h =>
      have hb : mergeBreak st s (some p) := h
      rw [mergeLoop_of_break st s (some p) hb]
      exact ⟨rfl, fun j => ⟨rfl, rfl, rfl, rfl⟩, fun j hh => hh, hb⟩

/-- The tail of the source's `mergeOverlapping` when the loop advanced:
recompute `s`'s windings from the first true predecessor `prev` (swapped
across the clipping boundary), recompute `in_result` on both endpoints of
`s`'s segment, and point `s.prev` at the first true predecessor. -/
def mergeFinish (st : Store) (s : Nat) (prev : Option Nat) (op : pathOp)
    (fillRule : FillRule) : Store :=
  let sp := st.mem s
  let s2 :=
    match prev with
    | none => { sp with windings := 0, otherWindings := 0 }
    | some p =>
      if sp.clipping = (st.mem p).clipping then
        { sp with windings := (st.mem p).windings + (st.mem p).selfWindings,
                  otherWindings := (st.mem p).otherWindings + (st.mem p).otherSelfWindings }
      else
        { sp with windings := (st.mem p).otherWindings + (st.mem p).otherSelfWindings,
                  otherWindings := (st.mem p).windings + (st.mem p).selfWindings }
  let s3 := { s2 with inResult := s2.InResult op fillRule, prev := prev }
  let mem2 := fun j => if j = s then s3 else st.mem j
  ⟨st.size, fun j =>
    if j = sp.other then { mem2 sp.other with inResult := s3.inResult }
    else mem2 j⟩

theorem mergeFinish_size (st : Store) (s : Nat) (prev : Option Nat) (op : pathOp)
    (fr : FillRule) : (mergeFinish st s prev op fr).size = st.size := rfl

theorem mergeFinish_mem (st : Store) (s : Nat) (prev : Option Nat) (op : pathOp)
    (fr : FillRule) (j : Nat) :
    ((mergeFinish st s prev op fr).mem j).x = (st.mem j).x ∧
    ((mergeFinish st s prev op fr).mem j).y = (st.mem j).y ∧
    ((mergeFinish st s prev op fr).mem j).other = (st.mem j).other ∧
    ((mergeFinish st s prev op fr).mem j).overlapped = (st.mem j).overlapped := by
  unfold mergeFinish
  dsimp only
  by_cases ho : j = (st.mem s).other
  · rw [if_pos ho]
    by_cases hos : (st.mem s).other = s
    · rw [if_pos hos]
      rw [ho, hos]
      cases prev with
      | none => exact ⟨rfl, rfl, hos.symm, rfl⟩
      | some p =>
          dsimp only
          by_cases hc : (st.mem s).clipping = (st.mem p).clipping
          · rw [if_pos hc]
            exact ⟨rfl, rfl, hos.symm, rfl⟩
          · rw [if_neg hc]
            exact ⟨rfl, rfl, hos.symm, rfl⟩
    · rw [if_neg hos]
      rw [ho]
      exact ⟨rfl, rfl, rfl, rfl⟩
  · rw [if_neg ho]
    by_cases hs : j = s
    · rw [if_pos hs]
      rw [hs]
      cases prev with
      | none => exact ⟨rfl, rfl, rfl, rfl⟩
      | some p =>
          dsimp only
          by_cases hc : (st.mem s).clipping = (st.mem p).clipping
          · rw [if_pos hc]
            exact ⟨rfl, rfl, rfl, rfl⟩
          · rw [if_neg hc]
            exact ⟨rfl, rfl, rfl, rfl⟩
    · rw [if_neg hs]
      exact ⟨rfl, rfl, rfl, rfl⟩

theorem mergeFinish_prev_s (st : Store) (s : Nat) (prev : Option Nat) (op : pathOp)
    (fr : FillRule) : ((mergeFinish st s prev op fr).mem s).prev = prev := by
  unfold mergeFinish
  dsimp only
  by_cases ho : s = (st.mem s).other
  · rw [if_pos ho, if_pos ho.symm]
  · rw [if_neg ho, if_pos rfl]

theorem mergeBreak_congr (st st' : Store) (s : Nat) (p? : Option Nat)
    (hsize : st'.size = st.size)
    (hov : ∀ j, (st'.mem j).overlapped = (st.mem j).overlapped)
    (hx : ∀ j, (st'.mem j).x = (st.mem j).x)
    (hy : ∀ j, (st'.mem j).y = (st.mem j).y)
    (ho : ∀ j, (st'.mem j).other = (st.mem j).other)
    (h : mergeBreak st s p?) : mergeBreak st' s p? := by
  cases p? with
  | none => trivial
  | some p =>
      rintro ⟨h1, h2, h3⟩
      apply h
      rw [hsize] at h1
      rw [hov p] at h2
      refine ⟨h1, h2, ?_⟩
      unfold pointsMatch at h3 ⊢
      simp only [hx, hy, ho] at h3
      exact h3

/-- The source's `mergeOverlapping`: return immediately if the endpoint was
already handled; walk the `prev` chain through all coinciding unhandled
predecessors, accumulating and marking; if the walk advanced, recompute the
windings and the result flags of `s` from the first true predecessor. -/
def mergeOverlapping (st : Store) (s : Nat) (op : pathOp) (fillRule : FillRule) : Store :=
  if (st.mem s).overlapped = true then st
  else if (mergeLoop st s (st.mem s).prev).2 = (st.mem s).prev then
    (mergeLoop st s (st.mem s).prev).1
  else
    mergeFinish (mergeLoop st s (st.mem s).prev).1 s
      (mergeLoop st s (st.mem s).prev).2 op fillRule

theorem mergeOverlapping_of_stable (st : Store) (s : Nat) (op : pathOp)
    (fr : FillRule)
    (h : (st.mem s).overlapped = true ∨ mergeBreak st s ((st.mem s).prev)) :
    mergeOverlapping st s op fr = st := by
  unfold mergeOverlapping
  by_cases h0 : (st.mem s).overlapped = true
  · rw [if_pos h0]
  · rw [if_neg h0]
    rcases h with h | h
    · exact absurd h h0
    · rw [mergeLoop_of_break st s _ h]
      simp
/-- C8: `mergeOverlapping` is idempotent per endpoint: for any segment
endpoint `s` and fixed operation and fill rule, calling `mergeOverlapping` a
second time after a first call leaves the whole store unchanged — in
particular `s`'s windings, otherWindings, selfWindings, otherSelfWindings,
prev, inResult, and the overlapped flags of all segments. -/
theorem mergeOverlapping_idempotent (st : Store) (s : Nat) (op : pathOp)
    (fr : FillRule) :
    mergeOverlapping (mergeOverlapping st s op fr) s op fr
      = mergeOverlapping st s op fr := by
  by_cases h0 : (st.mem s).overlapped = true
  · have h1 : mergeOverlapping st s op fr = st := by
      unfold mergeOverlapping
      rw [if_pos h0]
    rw [h1]
    exact h1
  · obtain ⟨psize, pgeom, pmono, pbrk⟩ := mergeLoop_post st s ((st.mem s).prev)
    by_cases hc : (mergeLoop st s ((st.mem s).prev)).2 = (st.mem s).prev
    · have h1 : mergeOverlapping st s op fr = (mergeLoop st s ((st.mem s).prev)).1 := by
        unfold mergeOverlapping
        rw [if_neg h0, if_pos hc]
      rw [h1]
      apply mergeOverlapping_of_stable
      right
      have hprev : ((mergeLoop st s ((st.mem s).prev)).1.mem s).prev
          = (st.mem s).prev := (pgeom s).2.2.2
      rw [hprev]
      have hpb := pbrk
      rw [hc] at hpb
      exact hpb
    · have h1 : mergeOverlapping st s op fr
          = mergeFinish (mergeLoop st s ((st.mem s).prev)).1 s
              (mergeLoop st s ((st.mem s).prev)).2 op fr := by
        unfold mergeOverlapping
        rw [if_neg h0, if_neg hc]
      rw [h1]
      apply mergeOverlapping_of_stable
      right
      rw [mergeFinish_prev_s]
      exact mergeBreak_congr (mergeLoop st s ((st.mem s).prev)).1 _ s _
        (mergeFinish_size _ _ _ _ _)
        (fun j => (mergeFinish_mem _ _ _ _ _ j).2.2.2)
        (fun j => (mergeFinish_mem _ _ _ _ _ j).1)
        (fun j => (mergeFinish_mem _ _ _ _ _ j).2.1)
        (fun j => (mergeFinish_mem _ _ _ _ _ j).2.2.1)
        pbrk
/-! ## NaN/Inf rejection in `AddPathEndpoints` (C7) -/

/-- The panic message of an `AddPathEndpoints` outcome, if any. -/
def APResult.errorMsg : APResult → Option String
  | .error (msg, _, _) => some msg
  | .ok _ => none

theorem feq_lineTo_not_close (c : GF) (h : c.feq LineToCmd = true) :
    c.feq CloseCmd = false := by
  cases c with
  | fin a =>
      simp [GF.feq, LineToCmd, CloseCmd] at h ⊢
      rw [h]
      norm_num
  | nan => rfl
  | pinf => rfl
  | ninf => simp [GF.feq, LineToCmd] at h

theorem cmdLen_of_flat (c : GF)
    (h : c.feq LineToCmd = true ∨ c.feq CloseCmd = true) : cmdLen c = 4 := by
  cases c with
  | fin a =>
      unfold cmdLen
      simp [GF.feq, LineToCmd, CloseCmd, QuadToCmd, CubeToCmd, ArcToCmd] at h ⊢
      rcases h with h | h <;> rw [h] <;> norm_num
  | nan => simp [GF.feq, LineToCmd, CloseCmd] at h
  | pinf => simp [GF.feq, LineToCmd, CloseCmd] at h
  | ninf => simp [GF.feq, LineToCmd, CloseCmd] at h

theorem addPathLoop_nan_error (d : List GF) (clipping isOpen : Bool) :
    ∀ (fuel : Nat) (st : Store) (q : List Nat) (seg : Int) (start : GF × GF) (i : Nat),
      d.length - i ≤ 4 * fuel → i % 4 = 0 → 4 ≤ i →
      (∀ k, k < d.length → 1 ≤ k → 4 * k < d.length →
        ((d.getD (4 * k) default).feq LineToCmd = true ∨
         ((d.getD (4 * k) default).feq CloseCmd = true ∧
          (d.getD (d.length - 3) default).feq (d.getD 1 default) = true ∧
          (d.getD (d.length - 2) default).feq (d.getD 2 default) = true))) →
      (∃ j, i ≤ j ∧ j < d.length ∧ (j % 4 = 1 ∨ j % 4 = 2) ∧
        ((d.getD j default).isNaN = true ∨ (d.getD j default).isInf = true)) →
      ∃ st' q', addPathLoop d clipping isOpen fuel st q seg start i
        = .error ("path has NaN or Inf", st', q') := by
  intro fuel
  induction fuel with
  | zero =>
      intro st q seg start i hfuel hi4 hi4le hcmd hbad
      obtain ⟨j, hji, hjlen, hjmod, hjbad⟩ := hbad
      omega
  | succ m ih =>
      intro st q seg start i hfuel hi4 hi4le hcmd hbad
      obtain ⟨j, hji, hjlen, hjmod, hjbad⟩ := hbad
      have hilen : i < d.length := by omega
      rw [addPathLoop, if_pos hilen]
      dsimp only
      have hk := hcmd (i / 4) (by omega) (by omega) (by omega)
      have hi4eq : 4 * (i / 4) = i := by omega
      rw [hi4eq] at hk
      have hflat : ((d.getD i default).feq LineToCmd
          || (d.getD i default).feq CloseCmd) = true := by
        simp only [Bool.or_eq_true]
        rcases hk with h | h
        · exact Or.inl h
        · exact Or.inr h.1
      rw [if_neg (not_not_intro hflat)]
      have h2 : ¬ (((d.getD i default).feq CloseCmd &&
          (!(d.getD (d.length - 3) default).feq (d.getD 1 default) ||
           !(d.getD (d.length - 2) default).feq (d.getD 2 default))) = true) := by
        rcases hk with h | ⟨h, hcl1, hcl2⟩
        · intro hcon
          rw [feq_lineTo_not_close _ h] at hcon
          simp at hcon
        · intro hcon
          rw [h, hcl1, hcl2] at hcon
          simp at hcon
      rw [if_neg h2]
      have hn4 : cmdLen (d.getD i default) = 4 := by
        apply cmdLen_of_flat
        rcases hk with h | h
        · exact Or.inl h
        · exact Or.inr h.1
      rw [hn4]
      have hidx1 : i + 4 - 3 = i + 1 := by omega
      have hidx2 : i + 4 - 2 = i + 2 := by omega
      rw [hidx1, hidx2]
      by_cases hchk : ((d.getD (i + 1) default).isNaN || (d.getD (i + 1) default).isInf
          || (d.getD (i + 2) default).isNaN || (d.getD (i + 2) default).isInf) = true
      · rw [if_pos hchk]
        exact ⟨st, q, rfl⟩
      · -- the offending coordinate lies in a later command
        have hjfar : i + 4 ≤ j := by
          by_contra hnear
          have hj12 : j = i + 1 ∨ j = i + 2 := by omega
          apply hchk
          rcases hj12 with h | h <;> rw [h] at hjbad <;>
            rcases hjbad with hb | hb <;> rw [hb] <;> simp
        rw [if_neg hchk]
        by_cases hskip : ((start.1.feq (d.getD (i + 1) default))
            && (start.2.feq (d.getD (i + 2) default))) = true
        · rw [if_pos hskip]
          exact ih st q (seg + 1) start (i + 4) (by omega) (by omega) (by omega)
            hcmd ⟨j, by omega, hjlen, hjmod, hjbad⟩
        · rw [if_neg hskip]
          exact ih _ _ (seg + 1) _ (i + 4) (by omega) (by omega) (by omega)
            hcmd ⟨j, by omega, hjlen, hjmod, hjbad⟩
/-- A flat polyline whose third point has a NaN x-coordinate:
MoveTo (0,0), LineTo (1,0), LineTo (NaN, 1). -/
def nanPathSample : Path :=
  ⟨[MoveToCmd, GF.fin 0, GF.fin 0, MoveToCmd,
    LineToCmd, GF.fin 1, GF.fin 0, LineToCmd,
    LineToCmd, GF.nan, GF.fin 1, LineToCmd]⟩

/-- C7 counterexample: the claim says the rejection happens before any
mutation of engine state; for a path whose NaN appears in its third point the
call does fail with the NaN/Inf panic, but the first segment's two endpoints
had already been allocated and appended when the panic fired (the error state
holds 2 endpoints while the initial store was empty). -/
theorem addPathEndpoints_nan_mutation_counterexample :
    (AddPathEndpoints emptyStore [] nanPathSample 0 false).errorMsg
      = some "path has NaN or Inf" ∧
    (AddPathEndpoints emptyStore [] nanPathSample 0 false).store.size = 2 ∧
    emptyStore.size = 0 := by
  refine ⟨by decide, by decide, rfl⟩

/-- C7 (amended): for every well-formed flat input path containing a NaN or
infinite coordinate, `AddPathEndpoints` fails with the "path has NaN or Inf"
panic (the spec's `InvalidInput`); when the non-finite coordinate is in the
path's start point the rejection precedes any mutation (the panic state is the
input state), but a non-finite coordinate later in the path is detected only
after the preceding segments were appended. -/
theorem addPathEndpoints_nonfinite_rejected (st : Store) (q : List Nat) (p : Path)
    (seg : Int) (clipping : Bool)
    (hcmd : ∀ k, k < p.d.length → 1 ≤ k → 4 * k < p.d.length →
      ((p.d.getD (4 * k) default).feq LineToCmd = true ∨
       ((p.d.getD (4 * k) default).feq CloseCmd = true ∧
        (p.d.getD (p.d.length - 3) default).feq (p.d.getD 1 default) = true ∧
        (p.d.getD (p.d.length - 2) default).feq (p.d.getD 2 default) = true)))
    (hnan : ∃ j, j < p.d.length ∧ (j % 4 = 1 ∨ j % 4 = 2) ∧
      ((p.d.getD j default).isNaN = true ∨ (p.d.getD j default).isInf = true)) :
    (∃ st' q', AddPathEndpoints st q p seg clipping
        = .error ("path has NaN or Inf", st', q')) ∧
    (((p.d.getD 1 default).isNaN || (p.d.getD 1 default).isInf
        || (p.d.getD 2 default).isNaN || (p.d.getD 2 default).isInf) = true →
      AddPathEndpoints st q p seg clipping = .error ("path has NaN or Inf", st, q)) := by
  have hlen0 : ¬ p.d.length = 0 := by
    obtain ⟨j, hj, h1, h2⟩ := hnan
    omega
  constructor
  · unfold AddPathEndpoints
    rw [if_neg hlen0]
    dsimp only
    by_cases hstart : ((p.d.getD 1 default).isNaN || (p.d.getD 1 default).isInf
        || (p.d.getD 2 default).isNaN || (p.d.getD 2 default).isInf) = true
    · rw [if_pos hstart]
      exact ⟨st, q, rfl⟩
    · rw [if_neg hstart]
      obtain ⟨j, hjlen, hjmod, hjbad⟩ := hnan
      have hj4 : 4 ≤ j := by
        by_contra hlt
        have hj12 : j = 1 ∨ j = 2 := by omega
        apply hstart
        rcases hj12 with h | h <;> rw [h] at hjbad <;>
          rcases hjbad with hb | hb <;> rw [hb] <;> simp
      exact addPathLoop_nan_error p.d clipping _ p.d.length st q seg _ 4
        (by omega) (by norm_num) (by norm_num) hcmd ⟨j, by omega, hjlen, hjmod, hjbad⟩
  · intro hstart
    unfold AddPathEndpoints
    rw [if_neg hlen0]
    dsimp only
    rw [if_pos hstart]

/-- C7 witness: the amended theorem applied to the concrete polyline with a
NaN third point (the offending coordinate slot is index 9). -/
theorem addPathEndpoints_nonfinite_rejected_witness :
    (∀ k, k < nanPathSample.d.length → 1 ≤ k → 4 * k < nanPathSample.d.length →
      ((nanPathSample.d.getD (4 * k) default).feq LineToCmd = true ∨
       ((nanPathSample.d.getD (4 * k) default).feq CloseCmd = true ∧
        (nanPathSample.d.getD (nanPathSample.d.length - 3) default).feq
          (nanPathSample.d.getD 1 default) = true ∧
        (nanPathSample.d.getD (nanPathSample.d.length - 2) default).feq
          (nanPathSample.d.getD 2 default) = true))) ∧
    (∃ j, j < nanPathSample.d.length ∧ (j % 4 = 1 ∨ j % 4 = 2) ∧
      ((nanPathSample.d.getD j default).isNaN = true ∨
       (nanPathSample.d.getD j default).isInf = true)) ∧
    ((∃ st' q', AddPathEndpoints emptyStore [] nanPathSample 0 false
        = .error ("path has NaN or Inf", st', q')) ∧
     (((nanPathSample.d.getD 1 default).isNaN || (nanPathSample.d.getD 1 default).isInf
         || (nanPathSample.d.getD 2 default).isNaN
         || (nanPathSample.d.getD 2 default).isInf) = true →
       AddPathEndpoints emptyStore [] nanPathSample 0 false
         = .error ("path has NaN or Inf", emptyStore, []))) :=
  ⟨by decide, ⟨9, by decide, by decide, by decide⟩,
   addPathEndpoints_nonfinite_rejected emptyStore [] nanPathSample 0 false (by decide)
     ⟨9, by decide, by decide, by decide⟩⟩

end Canvas
